import Mathlib

/-!
Shallow embedding of the account-storage engine of `runtime/storage.go`:
the `Storage` buffer (delta map, read cache, contract-update map), the
operations `ValueExists`, `ReadValue`, `WriteValue`, `recordContractUpdate`,
and `Commit`.

Modelling conventions:
* Go maps are embedded as association lists; the list order models the
  map's iteration order (which Go leaves unspecified), and `aupdate`
  replaces an existing binding in place, so lookups have map semantics.
* `common.Address` (`[8]byte`) is a list of byte values; storage keys are
  byte lists as well, since Go strings are byte strings that compare
  bytewise.
* The external ledger, the value codec (`interpreter`/`atree`, outside the
  sources under verification) and the slab-storage flush are parameters:
  `ledgerSet`, `encode`, `decode`, `slabErr`.
* Functions that panic in Go (`wrapPanic` + `panic`, `NewUnreachableError`)
  return `none` in the embedding.
* `sort.Slice` in `Commit` is embedded as the insertion sort that Go's
  sort package runs on slices of fewer than 13 elements (both the pre-1.19
  quicksort and the current pdqsort fall back to it at that size): each
  element is bubbled leftwards through the already-processed prefix while
  the comparator accepts the swap.
-/

namespace Runtime

/-- Host errors are opaque values surfaced unchanged; we model them as strings. -/
abbrev Err := String

/-- The bytes of a `common.Address` (an `[8]byte` in the source). -/
abbrev Address := List Nat

/-- A storage key string; Go strings are byte strings and compare
bytewise, so they are embedded as byte lists. -/
abbrev Key := List Nat

/-- The composite account-storage key `interpreter.StorageKey`. -/
structure StorageKey where
  address : Address
  key : Key
  deriving DecidableEq

/-- Lookup in an association list, the embedding of a Go map read. -/
def alookup {κ β : Type} [DecidableEq κ] : List (κ × β) → κ → Option β
  | [], _ => none
  | (k', v) :: rest, k => if k' = k then some v else alookup rest k

/-- Update of an association list, the embedding of a Go map assignment:
replaces an existing binding in place, otherwise appends a new one. -/
def aupdate {κ β : Type} [DecidableEq κ] : List (κ × β) → κ → β → List (κ × β)
  | [], k, v => [(k, v)]
  | (k', v') :: rest, k, v =>
    if k' = k then (k, v) :: rest else (k', v') :: aupdate rest k v

/-- The `Storage` struct: delta buffer, read cache and contract-update
table, each a map from `StorageKey` to a possibly-nil `interpreter.Value`
(`none` models Go's nil, i.e. a deletion or proven absence). -/
structure Storage (V : Type) where
  deltas : List (StorageKey × Option V)
  cache : List (StorageKey × Option V)
  contractUpdates : List (StorageKey × Option V)
  deriving DecidableEq

/-- The strict byte-slice order `bytes.Compare a b < 0`. -/
def bytesLt : List Nat → List Nat → Bool
  | [], [] => false
  | [], _ :: _ => true
  | _ :: _, [] => false
  | a :: as, b :: bs => if a < b then true else if b < a then false else bytesLt as bs

/-- Go string comparison `a < b`: bytewise lexicographic on the byte
strings, the same order as `bytes.Compare a b < 0`. -/
def keyLt (a b : Key) : Bool := bytesLt a b

/-- The comparator passed to `sort.Slice` in `Commit`, exactly as written
in the source: it tests the address order, then the key order, without
checking that the addresses are equal first. -/
def storageKeyLess (a b : StorageKey) : Bool :=
  if bytesLt a.address b.address then true
  else if keyLt a.key b.key then true
  else false

/-- One step of the insertion sort of Go's sort package: the freshly
appended element `x` is bubbled leftwards through the reversed processed
prefix while `less x` accepts its left neighbour. -/
def insertRev {α : Type} (less : α → α → Bool) (x : α) : List α → List α
  | [] => [x]
  | y :: ys => if less x y then y :: insertRev less x ys else x :: y :: ys

/-- The insertion sort Go's sort package applies to slices of fewer than
13 elements; the embedding of `sort.Slice` in `Commit`. -/
def insertionSortGo {α : Type} (less : α → α → Bool) (l : List α) : List α :=
  (l.foldl (fun acc x => insertRev less x acc) []).reverse

/-- The `accountStorageEntry` slice built by `Commit` before sorting:
all delta entries followed by all contract-update entries, in iteration
order. -/
def commitEntries {V : Type} (s : Storage V) : List (StorageKey × Option V) :=
  s.deltas ++ s.contractUpdates

/-- The entry slice after the `sort.Slice` call in `Commit`. -/
def sortedCommitEntries {V : Type} (s : Storage V) : List (StorageKey × Option V) :=
  insertionSortGo (fun a b => storageKeyLess a.1 b.1) (commitEntries s)

/-- Encoding of one entry value in `Commit`: a nil value is written as
empty bytes, otherwise the codec runs and may fail. -/
def encV {V : Type} (encode : V → Except Err (List Nat)) : Option V → Except Err (List Nat)
  | none => Except.ok []
  | some v => encode v

/-- The write loop of `Commit` over the sorted entries: returns the
sequence of `SetValue` calls made (key and bytes, in order, including a
call that the ledger fails) and the first error if one occurred. -/
def commitLoop {V : Type} (encode : V → Except Err (List Nat))
    (ledgerSet : StorageKey → List Nat → Option Err) :
    List (StorageKey × Option V) → List (StorageKey × List Nat) × Option Err
  | [] => ([], none)
  | e :: rest =>
    match encV encode e.2 with
    | Except.error err => ([], some err)
    | Except.ok bs =>
      match ledgerSet e.1 bs with
      | some err => ([(e.1, bs)], some err)
      | none =>
        let r := commitLoop encode ledgerSet rest
        ((e.1, bs) :: r.1, r.2)

/-- Observable outcome of `Commit`: the account-storage `SetValue` calls
in order, the returned error (if any), and whether control reached the
final `PersistentSlabStorage.FastCommit` call. -/
structure CommitResult where
  writes : List (StorageKey × List Nat)
  error : Option Err
  slabFlushed : Bool
  deriving DecidableEq

/-- The `Commit` method: collect delta and contract-update entries, sort
them with `storageKeyLess`, write each in order stopping at the first
error, then flush the slab storage (whose outcome is the parameter
`slabErr`). The returned `Storage` is the receiver as `Commit` leaves it. -/
def commit {V : Type} (encode : V → Except Err (List Nat))
    (ledgerSet : StorageKey → List Nat → Option Err)
    (slabErr : Option Err) (s : Storage V) : Storage V × CommitResult :=
  let r := commitLoop encode ledgerSet (sortedCommitEntries s)
  match r.2 with
  | some err => (s, ⟨r.1, some err, false⟩)
  | none => (s, ⟨r.1, slabErr, true⟩)

/-- The `interpreter.OptionalValue` interface as received by `WriteValue`:
a `*SomeValue`, the `NilValue`, or any other implementation of the
interface (the `default` branch of the type switch). -/
inductive OptionalValue (V : Type) where
  | someValue (v : V)
  | nilValue
  | otherValue
  deriving DecidableEq

/-- The `WriteValue` method: records the write in the delta only; the
`default` branch of the type switch panics with an unreachable error,
modelled as `none`. -/
def writeValue {V : Type} (s : Storage V) (address : Address) (key : Key)
    (value : OptionalValue V) : Option (Storage V) :=
  let storageKey : StorageKey := ⟨address, key⟩
  match value with
  | OptionalValue.someValue v =>
    some { s with deltas := aupdate s.deltas storageKey (some v) }
  | OptionalValue.nilValue =>
    some { s with deltas := aupdate s.deltas storageKey none }
  | OptionalValue.otherValue => none

/-- The `interpreter.OptionalValue` returned by `ReadValue`: `NilValue{}`
or a `SomeValue` wrapping the value. -/
inductive ReadResult (V : Type) where
  | nilValue
  | someValue (v : V)
  deriving DecidableEq

/-- Observable outcome of a successful `ReadValue`: the returned optional
value, the storage afterwards, and how many ledger `GetValue` calls ran. -/
structure ReadOut (V : Type) where
  result : ReadResult V
  store : Storage V
  ledgerGets : Nat
  deriving DecidableEq

/-- The `ReadValue` method: delta first, then cache, then the ledger;
empty ledger bytes cache a `none` and read as nil, non-empty bytes are
decoded (the codec is the parameter `decode`, `none` modelling the decode
panic) and cached. A ledger error panics, modelled as `none`. -/
def readValue {V : Type} (ledgerGet : StorageKey → Except Err (List Nat))
    (decode : List Nat → Option V) (s : Storage V)
    (address : Address) (key : Key) : Option (ReadOut V) :=
  let storageKey : StorageKey := ⟨address, key⟩
  match alookup s.deltas storageKey with
  | some none => some ⟨ReadResult.nilValue, s, 0⟩
  | some (some v) => some ⟨ReadResult.someValue v, s, 0⟩
  | none =>
    match alookup s.cache storageKey with
    | some none => some ⟨ReadResult.nilValue, s, 0⟩
    | some (some v) => some ⟨ReadResult.someValue v, s, 0⟩
    | none =>
      match ledgerGet storageKey with
      | Except.error _ => none
      | Except.ok storedData =>
        if storedData.isEmpty then
          some ⟨ReadResult.nilValue,
            { s with cache := aupdate s.cache storageKey none }, 1⟩
        else
          match decode storedData with
          | none => none
          | some value =>
            some ⟨ReadResult.someValue value,
              { s with cache := aupdate s.cache storageKey (some value) }, 1⟩

/-- Observable outcome of a successful `ValueExists`: the boolean result,
the storage afterwards, and how many ledger `ValueExists` calls ran. -/
structure ExistsOut (V : Type) where
  result : Bool
  store : Storage V
  ledgerCalls : Nat
  deriving DecidableEq

/-- The `ValueExists` method: delta first (present means the answer is
whether the delta value is non-nil), then cache, then the ledger; a
ledger miss caches a `none`. A ledger error panics, modelled as `none`. -/
def valueExists {V : Type} (ledgerExistsFn : StorageKey → Except Err Bool)
    (s : Storage V) (address : Address) (key : Key) : Option (ExistsOut V) :=
  let storageKey : StorageKey := ⟨address, key⟩
  match alookup s.deltas storageKey with
  | some value => some ⟨value.isSome, s, 0⟩
  | none =>
    match alookup s.cache storageKey with
    | some value => some ⟨value.isSome, s, 0⟩
    | none =>
      match ledgerExistsFn storageKey with
      | Except.error _ => none
      | Except.ok b =>
        if b then some ⟨true, s, 1⟩
        else some ⟨false, { s with cache := aupdate s.cache storageKey none }, 1⟩

/-- The `recordContractUpdate` method: records in the contract-update
table only. -/
def recordContractUpdate {V : Type} (s : Storage V) (address : Address)
    (key : Key) (contract : Option V) : Storage V :=
  { s with contractUpdates := aupdate s.contractUpdates ⟨address, key⟩ contract }

/-- A sequence of `WriteValue` calls on one key (propagating the panic of
an invalid optional shape). -/
def writeMany {V : Type} (s : Storage V) (address : Address) (key : Key) :
    List (OptionalValue V) → Option (Storage V)
  | [] => some s
  | w :: ws =>
    match writeValue s address key w with
    | none => none
    | some s' => writeMany s' address key ws

/-- The delta entry a `WriteValue` argument produces. -/
def deltaOf {V : Type} : OptionalValue V → Option V
  | OptionalValue.someValue v => some v
  | OptionalValue.nilValue => none
  | OptionalValue.otherValue => none

/-- The read result the last write of a key should produce. -/
def lastWriteResult {V : Type} : OptionalValue V → ReadResult V
  | OptionalValue.someValue v => ReadResult.someValue v
  | OptionalValue.nilValue => ReadResult.nilValue
  | OptionalValue.otherValue => ReadResult.nilValue

/-- Modelled from the spec: the canonical encoding of a buffered entry
value at commit (the `interpreter`/`atree` codec is outside the sources
under verification). A deletion (`none`) is written as empty bytes; a
present value is written as its canonical encoding `enc0 v`, which the
spec requires to be non-empty (an empty payload means absence). -/
def encodedBytes {V : Type} (enc0 : V → List Nat) : Option V → List Nat
  | none => []
  | some v => enc0 v

/-- The strict `(address, key)` lexicographic order the specification
prescribes for commit ordering. -/
def specLexLt (a b : StorageKey) : Bool :=
  bytesLt a.address b.address || (a.address = b.address && keyLt a.key b.key)

/-- Whether a key sequence is sorted by the strict specification order:
every adjacent pair is strictly increasing under `specLexLt`. -/
def sortedBySpec : List StorageKey → Bool
  | [] => true
  | [_] => true
  | a :: b :: rest => specLexLt a b && sortedBySpec (b :: rest)

/-- Number of account-storage writes a commit made for one key. -/
def keyWriteCount (r : CommitResult) (k : StorageKey) : Nat :=
  r.writes.countP (fun w => decide (w.1 = k))

/-- A commit-loop step that fully succeeds for an entry: its value
encodes, and the ledger accepts the write. -/
def entryStepOk {V : Type} (encode : V → Except Err (List Nat))
    (ledgerSet : StorageKey → List Nat → Option Err)
    (e : StorageKey × Option V) : Prop :=
  ∃ bs, encV encode e.2 = Except.ok bs ∧ ledgerSet e.1 bs = none

/-! Concrete fixtures for the concrete scenarios of the specification:
two 8-byte addresses `A < B`, the key bytes of `"x"` and `"y"`, a codec
over `Nat` values, and ledgers that always succeed or fail on demand. -/

/-- The 8-byte address called `A` in the ordering scenario. -/
def addrA : Address := [0, 0, 0, 0, 0, 0, 0, 1]

/-- The 8-byte address called `B` in the ordering scenario. -/
def addrB : Address := [0, 0, 0, 0, 0, 0, 0, 2]

/-- The byte string of the key `x`. -/
def keyX : Key := [120]

/-- The byte string of the key `y`. -/
def keyY : Key := [121]

/-- The storage key `(A, x)`. -/
def kAx : StorageKey := ⟨addrA, keyX⟩

/-- The storage key `(A, y)`. -/
def kAy : StorageKey := ⟨addrA, keyY⟩

/-- The storage key `(B, x)`. -/
def kBx : StorageKey := ⟨addrB, keyX⟩

/-- A total codec for `Nat` values whose encodings are never empty. -/
def enc0Nat : Nat → List Nat := fun n => [n + 1]

/-- The fallible view of `enc0Nat`: it always succeeds. -/
def encodeNat : Nat → Except Err (List Nat) := fun n => Except.ok (enc0Nat n)

/-- A codec that fails with the error `boom` on the value `2`. -/
def encodeFail2 : Nat → Except Err (List Nat) :=
  fun n => if n = 2 then Except.error "boom" else Except.ok [n]

/-- A ledger whose `SetValue` always succeeds. -/
def ledgerSetOk : StorageKey → List Nat → Option Err := fun _ _ => none

/-- A ledger whose `GetValue` always returns empty bytes. -/
def ledgerGetEmpty : StorageKey → Except Err (List Nat) := fun _ => Except.ok []

/-- A ledger whose `GetValue` always returns the byte `7`. -/
def ledgerGet7 : StorageKey → Except Err (List Nat) := fun _ => Except.ok [7]

/-- A decoder mapping nothing to a value. -/
def decodeNone : List Nat → Option Nat := fun _ => none

/-- A decoder mapping the byte `7` to the value `42`. -/
def decode42 : List Nat → Option Nat := fun bs => if bs = [7] then some 42 else none

/-- A ledger whose `ValueExists` always answers `false`. -/
def lexFalse : StorageKey → Except Err Bool := fun _ => Except.ok false

/-- A storage whose delta was filled in iteration order `(A,y), (B,x), (A,x)`. -/
def sOrder1 : Storage Nat := ⟨[(kAy, some 1), (kBx, some 2), (kAx, some 3)], [], []⟩

/-- The same delta associations as `sOrder1` in a different iteration order. -/
def sOrder2 : Storage Nat := ⟨[(kBx, some 2), (kAx, some 3), (kAy, some 1)], [], []⟩

/-- A storage holding the key `(A, x)` both as a delta and as a contract
update. -/
def sDup : Storage Nat := ⟨[(kAx, some 1)], [], [(kAx, some 2)]⟩

/-- A storage with a buffered deletion of a previously read key. -/
def sDel : Storage Nat := ⟨[(kAx, none)], [(kAx, some 5)], []⟩

/-- The empty storage of a fresh transaction. -/
def sEmpty : Storage Nat := ⟨[], [], []⟩

/-- The empty storage after caching the value `42` for `(A, x)`. -/
def sCached42 : Storage Nat := ⟨[], [(kAx, some 42)], []⟩

/-- A storage where `(A, x)` is in the delta and (conflicting) cache. -/
def sDeltaHit : Storage Nat := ⟨[(kAx, some 7)], [(kAx, none)], []⟩

/-- A storage where `(A, x)` is only in the cache. -/
def sCacheHit : Storage Nat := ⟨[], [(kAx, some 7)], []⟩

/-- A storage after writing `5` to `(A, x)` into an empty delta. -/
def sWrit5 : Storage Nat := ⟨[(kAx, some 5)], [], []⟩

/-- A storage whose second entry in commit order fails to encode under
`encodeFail2`. -/
def sFail : Storage Nat := ⟨[(kAx, some 1), (kAy, some 2)], [], []⟩

/-! Helper lemmas about the embedding. -/

/-- Looking a key up right after updating it yields the new binding. -/
theorem alookup_aupdate_self {κ β : Type} [DecidableEq κ] (l : List (κ × β)) (k : κ) (v : β) :
    alookup (aupdate l k v) k = some v := by
  induction l with
  | nil => simp [aupdate, alookup]
  | cons p rest ih =>
    obtain ⟨k', v'⟩ := p
    by_cases h : k' = k
    · simp [aupdate, alookup, h]
    · simp [aupdate, alookup, h, ih]

/-- Inserting an element with one Go insertion-sort bubbling pass is a
permutation of pushing it on top. -/
theorem insertRev_perm {α : Type} (less : α → α → Bool) (x : α) (acc : List α) :
    (insertRev less x acc).Perm (x :: acc) := by
  induction acc with
  | nil => simp [insertRev]
  | cons y ys ih =>
    simp only [insertRev]
    by_cases h : less x y
    · simp only [h, if_pos]
      exact (ih.cons y).trans (List.Perm.swap x y ys)
    · simp [h]

/-- The insertion-sort fold permutes its input onto the accumulator. -/
theorem foldl_insertRev_perm {α : Type} (less : α → α → Bool) :
    ∀ (l acc : List α), (l.foldl (fun a x => insertRev less x a) acc).Perm (l ++ acc)
  | [], acc => by simp
  | x :: l, acc => by
    simp only [List.foldl_cons]
    refine ((foldl_insertRev_perm less l (insertRev less x acc)).trans ?_)
    refine (List.Perm.append_left l (insertRev_perm less x acc)).trans ?_
    exact List.perm_middle

/-- The embedded `sort.Slice` call permutes the entry slice. -/
theorem insertionSortGo_perm {α : Type} (less : α → α → Bool) (l : List α) :
    (insertionSortGo less l).Perm l := by
  refine (List.reverse_perm _).trans ?_
  simpa using foldl_insertRev_perm less l []

/-- The write loop never writes a key more often than it occurs among the
entries. -/
theorem commitLoop_countP_le {V : Type} (encode : V → Except Err (List Nat))
    (ledgerSet : StorageKey → List Nat → Option Err) (p : StorageKey → Bool) :
    ∀ entries : List (StorageKey × Option V),
      (commitLoop encode ledgerSet entries).1.countP (fun w => p w.1)
        ≤ entries.countP (fun e => p e.1)
  | [] => by simp [commitLoop]
  | e :: rest => by
    have ih := commitLoop_countP_le encode ledgerSet p rest
    simp only [commitLoop]
    cases henc : encV encode e.2 with
    | error err => simp [List.countP_cons]
    | ok bs =>
      cases hset : ledgerSet e.1 bs with
      | some err =>
        simp only [hset, List.countP_cons, List.countP_nil]
        omega
      | none =>
        simp only [hset, List.countP_cons]
        omega

/-- When every value encodes and the ledger accepts every write, the
write loop writes each entry once, in order, with its encoded bytes. -/
theorem commitLoop_ok {V : Type} (encode : V → Except Err (List Nat))
    (enc0 : V → List Nat) (ledgerSet : StorageKey → List Nat → Option Err)
    (henc : ∀ v, encode v = Except.ok (enc0 v))
    (hset : ∀ k bs, ledgerSet k bs = none) :
    ∀ entries : List (StorageKey × Option V),
      commitLoop encode ledgerSet entries
        = (entries.map (fun e => (e.1, encodedBytes enc0 e.2)), none)
  | [] => by simp [commitLoop]
  | e :: rest => by
    have ih := commitLoop_ok encode enc0 ledgerSet henc hset rest
    obtain ⟨k, v⟩ := e
    cases v with
    | none => simp [commitLoop, encV, hset, ih, encodedBytes]
    | some v => simp [commitLoop, encV, henc, hset, ih, encodedBytes]

/-- When all entries before a failing one succeed, the write loop returns
exactly the failing entry's error, and its write trace stays within the
prefix plus the failing entry. -/
theorem commitLoop_first_error {V : Type} (encode : V → Except Err (List Nat))
    (ledgerSet : StorageKey → List Nat → Option Err) (err : Err) :
    ∀ (pre : List (StorageKey × Option V)) (e : StorageKey × Option V)
      (post : List (StorageKey × Option V)),
      (∀ x ∈ pre, entryStepOk encode ledgerSet x) →
      (encV encode e.2 = Except.error err ∨
        ∃ bs, encV encode e.2 = Except.ok bs ∧ ledgerSet e.1 bs = some err) →
      (commitLoop encode ledgerSet (pre ++ e :: post)).2 = some err
      ∧ (commitLoop encode ledgerSet (pre ++ e :: post)).1.length ≤ pre.length + 1
      ∧ ∀ w ∈ (commitLoop encode ledgerSet (pre ++ e :: post)).1,
          w.1 ∈ (pre ++ [e]).map Prod.fst
  | [], e, post, _, hfail => by
    rcases hfail with henc | ⟨bs, henc, hset⟩
    · simp [commitLoop, henc]
    · simp [commitLoop, henc, hset]
  | x :: pre, e, post, hpre, hfail => by
    obtain ⟨bs, henc, hset⟩ := hpre x (by simp)
    have ih := commitLoop_first_error encode ledgerSet err pre e post
      (fun y hy => hpre y (by simp [hy])) hfail
    simp only [List.cons_append, commitLoop, henc, hset]
    refine ⟨ih.1, ?_, ?_⟩
    · simpa using Nat.succ_le_succ ih.2.1
    · intro w hw
      simp only [List.mem_cons] at hw
      rcases hw with rfl | hw
      · simp
      · have := ih.2.2 w hw
        simp only [List.map_append, List.mem_append] at this ⊢
        simp only [List.map_cons, List.mem_cons]
        tauto

/-- The writes a commit emits are those of its write loop over the sorted
entries, in every outcome. -/
theorem commit_writes_def {V : Type} (encode : V → Except Err (List Nat))
    (ledgerSet : StorageKey → List Nat → Option Err) (slabErr : Option Err)
    (s : Storage V) :
    (commit encode ledgerSet slabErr s).2.writes
      = (commitLoop encode ledgerSet (sortedCommitEntries s)).1 := by
  unfold commit
  cases h : commitLoop encode ledgerSet (sortedCommitEntries s) with
  | mk ws res => cases res <;> simp

/-- A commit returns the receiver unchanged (the Go method never assigns
the delta, cache or contract-update fields). -/
theorem commit_fst_def {V : Type} (encode : V → Except Err (List Nat))
    (ledgerSet : StorageKey → List Nat → Option Err) (slabErr : Option Err)
    (s : Storage V) :
    (commit encode ledgerSet slabErr s).1 = s := by
  unfold commit
  cases h : commitLoop encode ledgerSet (sortedCommitEntries s) with
  | mk ws res => cases res <;> simp

/-- Entries of a list whose keys all differ from `k` contribute no
`k`-writes. -/
theorem countP_key_eq_zero {β : Type} (k : StorageKey) (l : List (StorageKey × β))
    (h : k ∉ l.map Prod.fst) :
    l.countP (fun e => decide (e.1 = k)) = 0 := by
  refine List.countP_eq_zero.2 ?_
  intro e he
  simp only [decide_eq_true_eq]
  intro hk
  exact h (List.mem_map.2 ⟨e, he, hk⟩)

/-- A list with no duplicate keys holds at most one entry for `k`. -/
theorem countP_key_le_one {β : Type} (k : StorageKey) :
    ∀ l : List (StorageKey × β), (l.map Prod.fst).Nodup →
      l.countP (fun e => decide (e.1 = k)) ≤ 1
  | [], _ => by simp
  | p :: rest, h => by
    simp only [List.map_cons, List.nodup_cons] at h
    by_cases hk : p.1 = k
    · have : rest.countP (fun e => decide (e.1 = k)) = 0 :=
        countP_key_eq_zero k rest (hk ▸ h.1)
      simp [List.countP_cons, hk, this]
    · have := countP_key_le_one k rest h.2
      simp only [List.countP_cons, hk, decide_eq_true_eq, if_neg]
      simpa using this

/-! Claim theorems. -/

/-- Claim C1: the claim states that Commit emits the account-storage writes
sorted strictly by `(address, key)` lexicographic order, and that writing
`(A,y), (B,x), (A,x)` in that insertion order produces set_value calls in
the order `(A,x), (A,y), (B,x)`. The code violates this: its comparator
tests the key order even when the addresses differ, so with delta
iteration order `(A,y), (B,x), (A,x)` the sort leaves the slice in the
order `(A,x), (B,x), (A,y)`, which is not sorted by the specified order
and differs from the required sequence. -/
theorem commit_writes_unsorted_C1 :
    (commit encodeNat ledgerSetOk none sOrder1).2.writes.map Prod.fst = [kAx, kBx, kAy]
    ∧ sortedBySpec ((commit encodeNat ledgerSetOk none sOrder1).2.writes.map Prod.fst)
        = false
    ∧ (commit encodeNat ledgerSetOk none sOrder1).2.writes.map Prod.fst
        ≠ [kAx, kAy, kBx] := by
  refine ⟨by decide, by decide, by decide⟩

/-- Claim C2: the claim states that Commit's output is a pure function of the
logical contents of the delta and contract-update maps. The code violates
this: `sOrder1` and `sOrder2` hold exactly the same key/value associations
(their delta lists are duplicate-free permutations of each other and the
other buffers are equal), yet the emitted set_value sequences differ,
because the faulty comparator is not a strict weak order and the sort
outcome therefore depends on the iteration order of the delta map. -/
theorem commit_not_function_of_delta_C2 :
    sOrder1.deltas.Perm sOrder2.deltas
    ∧ (sOrder1.deltas.map Prod.fst).Nodup
    ∧ (sOrder2.deltas.map Prod.fst).Nodup
    ∧ sOrder1.contractUpdates = sOrder2.contractUpdates
    ∧ sOrder1.cache = sOrder2.cache
    ∧ (commit encodeNat ledgerSetOk none sOrder1).2.writes
        ≠ (commit encodeNat ledgerSetOk none sOrder2).2.writes := by
  refine ⟨by decide, by decide, by decide, rfl, rfl, by decide⟩

/-- Claim C3 counterexample: the claim includes the case of a key present in
both the delta and the contract-update table, but Commit concatenates the
two tables without deduplication, so such a key is written twice. -/
theorem commit_duplicate_write_counterexample_C3 :
    ¬ keyWriteCount (commit encodeNat ledgerSetOk none sDup).2 kAx ≤ 1 := by
  decide

/-- Claim C3 amended: during a single Commit the engine calls set_value at
most once per `(address, key)`, provided the delta and contract-update
tables have no duplicate keys and the key does not occur in both tables. -/
theorem commit_at_most_one_write_per_key_C3 {V : Type}
    (encode : V → Except Err (List Nat))
    (ledgerSet : StorageKey → List Nat → Option Err) (slabErr : Option Err)
    (s : Storage V) (k : StorageKey)
    (hd : (s.deltas.map Prod.fst).Nodup)
    (hc : (s.contractUpdates.map Prod.fst).Nodup)
    (hnotboth : ¬ (k ∈ s.deltas.map Prod.fst ∧ k ∈ s.contractUpdates.map Prod.fst)) :
    keyWriteCount (commit encode ledgerSet slabErr s).2 k ≤ 1 := by
  unfold keyWriteCount
  rw [commit_writes_def]
  refine le_trans (commitLoop_countP_le encode ledgerSet (fun a => decide (a = k)) _) ?_
  have hperm := (insertionSortGo_perm
    (fun a b => storageKeyLess a.1 b.1) (commitEntries s)).countP_eq
    (fun e => decide (e.1 = k))
  unfold sortedCommitEntries
  rw [hperm]
  unfold commitEntries
  rw [List.countP_append]
  rcases not_and_or.mp hnotboth with hnd | hnc
  · have h1 : s.deltas.countP (fun e => decide (e.1 = k)) = 0 :=
      countP_key_eq_zero k s.deltas hnd
    have h2 := countP_key_le_one k s.contractUpdates hc
    omega
  · have h1 := countP_key_le_one k s.deltas hd
    have h2 : s.contractUpdates.countP (fun e => decide (e.1 = k)) = 0 :=
      countP_key_eq_zero k s.contractUpdates hnc
    omega

/-- Witness for the amended C3 at a concrete storage: the key `(A, x)`
occurs only in the delta of `sOrder1`, and one commit writes it once. -/
theorem commit_at_most_one_write_per_key_C3_witness :
    keyWriteCount (commit encodeNat ledgerSetOk none sOrder1).2 kAx ≤ 1 :=
  commit_at_most_one_write_per_key_C3 encodeNat ledgerSetOk none sOrder1 kAx
    (by decide) (by decide) (by decide)

/-- A successful write leaves the delta updated with the written binding
and the other buffers untouched. -/
theorem writeValue_some_eq {V : Type} (s s' : Storage V) (address : Address)
    (key : Key) (w : OptionalValue V)
    (h : writeValue s address key w = some s') :
    s' = { s with deltas := aupdate s.deltas ⟨address, key⟩ (deltaOf w) } := by
  cases w with
  | someValue v =>
    simp only [writeValue, Option.some.injEq] at h
    simp [← h, deltaOf]
  | nilValue =>
    simp only [writeValue, Option.some.injEq] at h
    simp [← h, deltaOf]
  | otherValue => simp [writeValue] at h

/-- After a successful sequence of writes on one key ending in `w`, the
delta holds exactly the binding of `w` for that key. -/
theorem writeMany_append_last {V : Type} (address : Address) (key : Key)
    (w : OptionalValue V) :
    ∀ (ws : List (OptionalValue V)) (s s' : Storage V),
      writeMany s address key (ws ++ [w]) = some s' →
      alookup s'.deltas ⟨address, key⟩ = some (deltaOf w)
  | [], s, s', h => by
    simp only [List.nil_append, writeMany] at h
    cases hw : writeValue s address key w with
    | none => rw [hw] at h; cases h
    | some s₁ =>
      rw [hw] at h
      simp only [writeMany, Option.some.injEq] at h
      subst h
      rw [writeValue_some_eq s s₁ address key w hw]
      exact alookup_aupdate_self s.deltas ⟨address, key⟩ (deltaOf w)
  | x :: ws, s, s', h => by
    simp only [List.cons_append, writeMany] at h
    cases hw : writeValue s address key x with
    | none => rw [hw] at h; cases h
    | some s₁ =>
      rw [hw] at h
      exact writeMany_append_last address key w ws s₁ s' h

/-- Claim C4: for every sequence of write_value calls on the same
`(address, key)` within one transaction, a subsequent read_value on that
key returns the last-written value (Some for a written Some, Nil for a
written None) without consulting the ledger and without changing the
storage. -/
theorem write_then_read_last_C4 {V : Type}
    (ledgerGet : StorageKey → Except Err (List Nat))
    (decode : List Nat → Option V) (s s' : Storage V)
    (address : Address) (key : Key)
    (ws : List (OptionalValue V)) (w : OptionalValue V)
    (hw : writeMany s address key (ws ++ [w]) = some s') :
    readValue ledgerGet decode s' address key
      = some ⟨lastWriteResult w, s', 0⟩ := by
  have hl := writeMany_append_last address key w ws s s' hw
  cases w with
  | someValue v =>
    simp only [deltaOf] at hl
    simp [readValue, hl, lastWriteResult]
  | nilValue =>
    simp only [deltaOf] at hl
    simp [readValue, hl, lastWriteResult]
  | otherValue =>
    simp only [deltaOf] at hl
    simp [readValue, hl, lastWriteResult]

/-- Witness for C4: writing 1, then a deletion, then 5 to `(A, x)` and
reading it back yields Some 5, the storage unchanged and no ledger call. -/
theorem write_then_read_last_C4_witness :
    readValue ledgerGetEmpty decodeNone sWrit5 addrA keyX
      = some ⟨ReadResult.someValue 5, sWrit5, 0⟩ :=
  write_then_read_last_C4 ledgerGetEmpty decodeNone sEmpty sWrit5 addrA keyX
    [OptionalValue.someValue 1, OptionalValue.nilValue] (OptionalValue.someValue 5)
    (by decide)

/-- Claim C5: value_exists consults the delta first (a present delta entry
decides the result as value-is-not-nil with no ledger call, whatever the
cache holds), then the cache (likewise with no ledger call), then the
ledger, recording None in the cache on a ledger miss. -/
theorem value_exists_priority_C5 {V : Type}
    (ledgerExistsFn : StorageKey → Except Err Bool) (s : Storage V)
    (address : Address) (key : Key) :
    (∀ dv, alookup s.deltas ⟨address, key⟩ = some dv →
      valueExists ledgerExistsFn s address key = some ⟨dv.isSome, s, 0⟩)
    ∧ (alookup s.deltas ⟨address, key⟩ = none →
      ∀ cv, alookup s.cache ⟨address, key⟩ = some cv →
        valueExists ledgerExistsFn s address key = some ⟨cv.isSome, s, 0⟩)
    ∧ (alookup s.deltas ⟨address, key⟩ = none →
      alookup s.cache ⟨address, key⟩ = none →
      ledgerExistsFn ⟨address, key⟩ = Except.ok false →
      valueExists ledgerExistsFn s address key
        = some ⟨false, { s with cache := aupdate s.cache ⟨address, key⟩ none }, 1⟩) := by
  refine ⟨?_, ?_, ?_⟩
  · intro dv hd
    simp [valueExists, hd]
  · intro hd cv hc
    simp [valueExists, hd, hc]
  · intro hd hc hl
    simp [valueExists, hd, hc, hl]

/-- Witness for C5 at concrete storages: a delta entry wins over a
conflicting cache entry, a cache entry answers without the ledger, and a
ledger miss caches None. -/
theorem value_exists_priority_C5_witness :
    valueExists lexFalse sDeltaHit addrA keyX = some ⟨true, sDeltaHit, 0⟩
    ∧ valueExists lexFalse sCacheHit addrA keyX = some ⟨true, sCacheHit, 0⟩
    ∧ valueExists lexFalse sEmpty addrA keyX
        = some ⟨false, ⟨[], [(kAx, none)], []⟩, 1⟩ :=
  ⟨(value_exists_priority_C5 lexFalse sDeltaHit addrA keyX).1 (some 7) rfl,
    (value_exists_priority_C5 lexFalse sCacheHit addrA keyX).2.1 rfl (some 7) rfl,
    (value_exists_priority_C5 lexFalse sEmpty addrA keyX).2.2 rfl rfl rfl⟩

/-- Claim C9: write_value never fails on the two optional shapes of the public
interface: for a Some or a Nil argument it records the delta binding and
returns normally, so the panic branch is unreachable under that
precondition. -/
theorem write_value_no_panic_C9 {V : Type} (s : Storage V) (address : Address)
    (key : Key) (value : OptionalValue V)
    (h : (∃ v, value = OptionalValue.someValue v) ∨ value = OptionalValue.nilValue) :
    writeValue s address key value
      = some { s with deltas := aupdate s.deltas ⟨address, key⟩ (deltaOf value) } := by
  rcases h with ⟨v, rfl⟩ | rfl
  · simp [writeValue, deltaOf]
  · simp [writeValue, deltaOf]

/-- Witness for C9: writing Some 5 to an empty storage succeeds. -/
theorem write_value_no_panic_C9_witness :
    writeValue sEmpty addrA keyX (OptionalValue.someValue 5) = some sWrit5 :=
  write_value_no_panic_C9 sEmpty addrA keyX (OptionalValue.someValue 5)
    (Or.inl ⟨5, rfl⟩)

/-- Claim C6: at commit, every buffered entry whose value is None is written
to the ledger as empty bytes, and every entry whose value is Some v is
written as the canonical encoding of v, which is non-empty. The codec is
modelled from the spec by `enc0` with the non-emptiness hypothesis. -/
theorem commit_deletion_and_value_bytes_C6 {V : Type}
    (encode : V → Except Err (List Nat)) (enc0 : V → List Nat)
    (ledgerSet : StorageKey → List Nat → Option Err) (slabErr : Option Err)
    (s : Storage V)
    (henc : ∀ v, encode v = Except.ok (enc0 v))
    (hne : ∀ v, enc0 v ≠ [])
    (hset : ∀ k bs, ledgerSet k bs = none) :
    (commit encode ledgerSet slabErr s).2.writes
      = (sortedCommitEntries s).map (fun e => (e.1, encodedBytes enc0 e.2))
    ∧ ∀ e ∈ sortedCommitEntries s,
        (e.2 = none → encodedBytes enc0 e.2 = [])
        ∧ ∀ v, e.2 = some v → encodedBytes enc0 e.2 ≠ [] := by
  constructor
  · rw [commit_writes_def, commitLoop_ok encode enc0 ledgerSet henc hset]
  · intro e _
    constructor
    · intro h
      rw [h]
      simp [encodedBytes]
    · intro v hv
      rw [hv]
      exact hne v

/-- Witness for C6: committing a buffered deletion of the previously
read key `(A, x)` emits exactly one set_value call with empty bytes. -/
theorem commit_deletion_and_value_bytes_C6_witness :
    (commit encodeNat ledgerSetOk none sDel).2.writes
      = (sortedCommitEntries sDel).map (fun e => (e.1, encodedBytes enc0Nat e.2))
    ∧ (commit encodeNat ledgerSetOk none sDel).2.writes = [(kAx, [])] :=
  ⟨(commit_deletion_and_value_bytes_C6 encodeNat enc0Nat ledgerSetOk none sDel
      (fun _ => rfl) (fun v => by simp [enc0Nat]) (fun _ _ => rfl)).1,
    by decide⟩

/-- Claim C7: a successful read_value of a key in neither the delta nor the
cache performs exactly one ledger get_value call, leaves the delta alone,
stores the decoded value (or None for empty bytes) in the cache, and a
subsequent read_value of the same key returns the same result with zero
further ledger calls and no state change. -/
theorem read_through_cache_C7 {V : Type}
    (ledgerGet : StorageKey → Except Err (List Nat))
    (decode : List Nat → Option V) (s : Storage V)
    (address : Address) (key : Key) (r : ReadOut V)
    (hd : alookup s.deltas ⟨address, key⟩ = none)
    (hc : alookup s.cache ⟨address, key⟩ = none)
    (hr : readValue ledgerGet decode s address key = some r) :
    r.ledgerGets = 1
    ∧ r.store.deltas = s.deltas
    ∧ (∃ bs, ledgerGet ⟨address, key⟩ = Except.ok bs ∧
        ((bs.isEmpty = true ∧ r.result = ReadResult.nilValue
            ∧ alookup r.store.cache ⟨address, key⟩ = some none)
          ∨ (bs.isEmpty = false ∧ ∃ v, decode bs = some v
            ∧ r.result = ReadResult.someValue v
            ∧ alookup r.store.cache ⟨address, key⟩ = some (some v))))
    ∧ readValue ledgerGet decode r.store address key = some ⟨r.result, r.store, 0⟩ := by
  cases hg : ledgerGet ⟨address, key⟩ with
  | error e =>
    have hnone : readValue ledgerGet decode s address key = none := by
      simp [readValue, hd, hc, hg]
    rw [hnone] at hr
    cases hr
  | ok bs =>
    by_cases hb : bs.isEmpty = true
    · have hread : readValue ledgerGet decode s address key
          = some ⟨ReadResult.nilValue,
            { s with cache := aupdate s.cache ⟨address, key⟩ none }, 1⟩ := by
        simp [readValue, hd, hc, hg, hb]
      rw [hread] at hr
      have hrr := Option.some.inj hr
      subst hrr
      refine ⟨rfl, rfl, ⟨bs, rfl, Or.inl ⟨hb, rfl,
        alookup_aupdate_self s.cache ⟨address, key⟩ none⟩⟩, ?_⟩
      simp [readValue, hd, alookup_aupdate_self]
    · cases hv : decode bs with
      | none =>
        have hnone : readValue ledgerGet decode s address key = none := by
          simp [readValue, hd, hc, hg, hb, hv]
        rw [hnone] at hr
        cases hr
      | some v =>
        have hread : readValue ledgerGet decode s address key
            = some ⟨ReadResult.someValue v,
              { s with cache := aupdate s.cache ⟨address, key⟩ (some v) }, 1⟩ := by
          simp [readValue, hd, hc, hg, hb, hv]
        rw [hread] at hr
        have hrr := Option.some.inj hr
        subst hrr
        refine ⟨rfl, rfl, ⟨bs, rfl, Or.inr ⟨by simpa using hb, v, hv, rfl,
          alookup_aupdate_self s.cache ⟨address, key⟩ (some v)⟩⟩, ?_⟩
        simp [readValue, hd, alookup_aupdate_self]

/-- Witness for C7's second read at a concrete cache state: after the
first read of `(A, x)` decoded 42 with one ledger call, reading again
returns Some 42 with zero ledger calls. -/
theorem read_through_cache_C7_witness :
    readValue ledgerGet7 decode42 sCached42 addrA keyX
      = some ⟨ReadResult.someValue 42, sCached42, 0⟩ :=
  (read_through_cache_C7 ledgerGet7 decode42 sEmpty addrA keyX
    ⟨ReadResult.someValue 42, sCached42, 1⟩ rfl rfl rfl).2.2.2

/-- Commit taking the error branch: when the write loop over the sorted
entries ends in an error, that error is what Commit returns, and the slab
flush is not reached. -/
theorem commit_error_def {V : Type} (encode : V → Except Err (List Nat))
    (ledgerSet : StorageKey → List Nat → Option Err) (slabErr : Option Err)
    (s : Storage V) (err : Err)
    (h : (commitLoop encode ledgerSet (sortedCommitEntries s)).2 = some err) :
    (commit encode ledgerSet slabErr s).2.error = some err
    ∧ (commit encode ledgerSet slabErr s).2.slabFlushed = false := by
  unfold commit
  cases hcl : commitLoop encode ledgerSet (sortedCommitEntries s) with
  | mk ws res =>
    rw [hcl] at h
    simp only at h
    subst h
    exact ⟨rfl, rfl⟩

/-- Claim C8: Commit stops at the first error and propagates it unchanged:
when every entry before a failing one succeeds and that entry fails (its
encoding errors, or the ledger rejects its write), Commit returns exactly
that error, does not reach the slab flush, and the set_value calls it made
stay within the preceding entries plus the failing call. -/
theorem commit_first_error_C8 {V : Type} (encode : V → Except Err (List Nat))
    (ledgerSet : StorageKey → List Nat → Option Err) (slabErr : Option Err)
    (s : Storage V) (pre post : List (StorageKey × Option V))
    (e : StorageKey × Option V) (err : Err)
    (hsplit : sortedCommitEntries s = pre ++ e :: post)
    (hpre : ∀ x ∈ pre, entryStepOk encode ledgerSet x)
    (hfail : encV encode e.2 = Except.error err ∨
      ∃ bs, encV encode e.2 = Except.ok bs ∧ ledgerSet e.1 bs = some err) :
    (commit encode ledgerSet slabErr s).2.error = some err
    ∧ (commit encode ledgerSet slabErr s).2.slabFlushed = false
    ∧ (commit encode ledgerSet slabErr s).2.writes.length ≤ pre.length + 1
    ∧ ∀ w ∈ (commit encode ledgerSet slabErr s).2.writes,
        w.1 ∈ (pre ++ [e]).map Prod.fst := by
  have hl := commitLoop_first_error encode ledgerSet err pre e post hpre hfail
  rw [← hsplit] at hl
  have hed := commit_error_def encode ledgerSet slabErr s err hl.1
  refine ⟨hed.1, hed.2, ?_, ?_⟩
  · rw [commit_writes_def]
    exact hl.2.1
  · intro w hw
    rw [commit_writes_def] at hw
    exact hl.2.2 w hw

/-- Witness for C8: with a codec that fails on the second entry of the
commit order with the error boom, Commit returns boom and does not flush
the slab storage. -/
theorem commit_first_error_C8_witness :
    (commit encodeFail2 ledgerSetOk none sFail).2.error = some "boom"
    ∧ (commit encodeFail2 ledgerSetOk none sFail).2.slabFlushed = false := by
  have h := commit_first_error_C8 encodeFail2 ledgerSetOk none sFail
    [(kAx, some 1)] [] (kAy, some 2) "boom" (by decide)
    (by
      intro x hx
      simp only [List.mem_singleton] at hx
      subst hx
      exact ⟨[1], rfl, rfl⟩)
    (Or.inl rfl)
  exact ⟨h.1, h.2.1⟩

/-- Claim C10 counterexample: the claim's conclusion that a second Commit
on the same Storage re-emits the same sequence fails. A successful first
Commit on `sOrder1` leaves its buffers unchanged, and `sOrder2` lists
exactly those unchanged associations in another iteration order — one a
fresh Go range loop over the very same map may produce, since Go
randomizes map iteration per loop. The second Commit, iterating in that
order, emits a different set_value sequence, because the faulty
comparator makes the sort order-dependent. -/
theorem commit_reemit_not_same_sequence_C10 :
    (commit encodeNat ledgerSetOk none sOrder1).2.error = none
    ∧ (commit encodeNat ledgerSetOk none sOrder1).1.deltas.Perm sOrder2.deltas
    ∧ ((commit encodeNat ledgerSetOk none sOrder1).1.deltas.map Prod.fst).Nodup
    ∧ (sOrder2.deltas.map Prod.fst).Nodup
    ∧ (commit encodeNat ledgerSetOk none sOrder1).1.cache = sOrder2.cache
    ∧ (commit encodeNat ledgerSetOk none sOrder1).1.contractUpdates
        = sOrder2.contractUpdates
    ∧ (commit encodeNat ledgerSetOk none sOrder2).2.writes
        ≠ (commit encodeNat ledgerSetOk none sOrder1).2.writes := by
  refine ⟨by decide, by decide, by decide, by decide, by decide, by decide, by decide⟩

/-- Claim C10 amended: Commit leaves the delta, cache and contract-update
buffers unchanged (it only reads them), so a second Commit over those
unchanged buffers — under any iteration order of the same unchanged
associations, since Go fixes none — emits the same multiset of
account-storage set_value calls, the same calls with the same bytes,
though not necessarily in the same order. `s₂` stands for the storage at
the second Commit: its buffers hold exactly the entries the first Commit
left behind. -/
theorem commit_frame_reemit_C10 {V : Type} (encode : V → Except Err (List Nat))
    (enc0 : V → List Nat) (ledgerSet : StorageKey → List Nat → Option Err)
    (slabErr : Option Err) (s s₂ : Storage V)
    (henc : ∀ v, encode v = Except.ok (enc0 v))
    (hset : ∀ k bs, ledgerSet k bs = none)
    (hd : (commit encode ledgerSet slabErr s).1.deltas.Perm s₂.deltas)
    (hc : (commit encode ledgerSet slabErr s).1.contractUpdates.Perm
        s₂.contractUpdates) :
    (commit encode ledgerSet slabErr s).1.deltas = s.deltas
    ∧ (commit encode ledgerSet slabErr s).1.cache = s.cache
    ∧ (commit encode ledgerSet slabErr s).1.contractUpdates = s.contractUpdates
    ∧ ((commit encode ledgerSet slabErr s₂).2.writes).Perm
        ((commit encode ledgerSet slabErr s).2.writes) := by
  rw [commit_fst_def] at hd hc
  have hperm : (sortedCommitEntries s₂).Perm (sortedCommitEntries s) :=
    ((insertionSortGo_perm _ (commitEntries s₂)).trans
      ((hd.symm).append (hc.symm))).trans
      (insertionSortGo_perm _ (commitEntries s)).symm
  refine ⟨?_, ?_, ?_, ?_⟩
  · rw [commit_fst_def]
  · rw [commit_fst_def]
  · rw [commit_fst_def]
  · rw [commit_writes_def, commit_writes_def,
      commitLoop_ok encode enc0 ledgerSet henc hset,
      commitLoop_ok encode enc0 ledgerSet henc hset]
    exact hperm.map _

/-- Witness for the amended C10: a first Commit on `sOrder1` leaves its
buffers unchanged, and a second Commit seeing them in the iteration order
of `sOrder2` emits a permutation of the first Commit's writes. -/
theorem commit_frame_reemit_C10_witness :
    (commit encodeNat ledgerSetOk none sOrder1).1.deltas = sOrder1.deltas
    ∧ (commit encodeNat ledgerSetOk none sOrder1).1.cache = sOrder1.cache
    ∧ (commit encodeNat ledgerSetOk none sOrder1).1.contractUpdates
        = sOrder1.contractUpdates
    ∧ ((commit encodeNat ledgerSetOk none sOrder2).2.writes).Perm
        ((commit encodeNat ledgerSetOk none sOrder1).2.writes) :=
  commit_frame_reemit_C10 encodeNat enc0Nat ledgerSetOk none sOrder1 sOrder2
    (fun _ => rfl) (fun _ _ => rfl) (by decide) (by decide)

end Runtime
